import Mathlib

/-!
Verification of the GradCafe scrape/clean pipeline (module_2).

This file is a shallow embedding of `WebScraping/clean.py` (class
`GradCafeDataCleaner`) and `WebScraping/scrape.py` (class `GradCafeScraper`)
into Lean 4, together with theorems settling the specification claims about
them.

Modelling conventions:
* Python strings are Lean `String`s; most functions work on `String.data`
  (`List Char`).
* Python regex character classes are modelled on ASCII: `\w` is
  `Char.isAlphanum` or `'_'`, `\s` is the six ASCII whitespace characters.
  All inputs appearing in the repository's data are ASCII.
* Python `float` is binary64 and is modelled exactly: `pyFloat` computes
  the correctly-rounded binary64 value of a decimal literal (or of a
  division by 10) as an exact dyadic fraction, and the `"%.2f"`/`"%.1f"`
  formatting rounds that exact value half-to-even, as CPython's
  correctly-rounded float formatting does.
* Exception handling (`try`/`except`) is modelled by total functions: every
  embedded parser is total, and `clean_entry` returns an `Option`.
-/

namespace GradCafe

/-- Python regex `\s` (ASCII): space, tab, newline, carriage return,
vertical tab, form feed. -/
def pySpace (c : Char) : Bool :=
  c = ' ' || c = '\t' || c = '\n' || c = '\r' || c = '\x0b' || c = '\x0c'

/-- Python regex `\w` (ASCII model): alphanumeric or underscore. -/
def wordChar (c : Char) : Bool :=
  c.isAlphanum || c = '_'

/-- The literal characters kept by `_clean_text`'s final substitution
`re.sub(r'[^\w\s\-.,;:()&/]', '', text)` besides `\w` and `\s`. -/
def keptSpecial (c : Char) : Bool :=
  c = '-' || c = '.' || c = ',' || c = ';' || c = ':' || c = '(' || c = ')' || c = '&' || c = '/'

/-- A character survives `_clean_text`'s special-character filter. -/
def keepChar (c : Char) : Bool :=
  wordChar c || pySpace c || keptSpecial c

/-- Split a character list at the first `'>'`: returns the characters before
it and the characters after it. Helper for the HTML-tag regex. -/
def splitAtGt : List Char → Option (List Char × List Char)
  | [] => none
  | c :: rest =>
    if c = '>' then some ([], rest)
    else (splitAtGt rest).map (fun p => (c :: p.1, p.2))

/-- `re.sub(r'<[^>]+>', '', text)`, fuelled so that it reduces in the kernel:
on a `<`, the span up to the first following `>` is dropped when at least one
character lies between the brackets (the regex `[^>]+` can consume further
`<`s but never a `>`); a `<` immediately followed by `>` or with no later `>`
is kept and scanning resumes at the next character. Each step consumes at
least one character, so `l.length` fuel always suffices. -/
def stripTagsFuel : Nat → List Char → List Char
  | 0, l => l
  | _ + 1, [] => []
  | fuel + 1, c :: rest =>
    if c = '<' then
      match splitAtGt rest with
      | some p => if p.1 = [] then c :: stripTagsFuel fuel rest else stripTagsFuel fuel p.2
      | none => c :: stripTagsFuel fuel rest
    else c :: stripTagsFuel fuel rest

/-- `re.sub(r'<[^>]+>', '', text)`. -/
def stripTags (l : List Char) : List Char :=
  stripTagsFuel l.length l

/-- `re.sub(r'\s+', ' ', text)` as a one-pass scanner: the first character of
each maximal whitespace run becomes a single space, the rest of the run is
dropped. The flag records whether the previous character was whitespace. -/
def collapseAux : Bool → List Char → List Char
  | _, [] => []
  | prevSpace, c :: rest =>
    if pySpace c then
      if prevSpace then collapseAux true rest
      else ' ' :: collapseAux true rest
    else c :: collapseAux false rest

/-- `re.sub(r'\s+', ' ', text)`: collapse each maximal run of whitespace to a
single space. -/
def collapseSpaces (l : List Char) : List Char :=
  collapseAux false l

/-- Python `str.strip()` (ASCII whitespace model): drop leading and trailing
whitespace. -/
def stripChars (l : List Char) : List Char :=
  ((l.dropWhile pySpace).reverse.dropWhile pySpace).reverse

/-- Python `str.strip()` on `String`. -/
def pyStrip (s : String) : String :=
  ⟨stripChars s.data⟩

/-- `GradCafeDataCleaner._clean_text`: returns `""` for empty/blank input,
else removes HTML tags, collapses and strips whitespace, then removes
special characters. -/
def clean_text (s : String) : String :=
  if pyStrip s = "" then ""
  else ⟨(stripChars (collapseSpaces (stripTags s.data))).filter keepChar⟩

/-- Python's substring test `needle in hay` on character lists: some tail of
the haystack starts with the needle. -/
def isSub (needle : List Char) : List Char → Bool
  | [] => needle.isEmpty
  | c :: rest => needle.isPrefixOf (c :: rest) || isSub needle rest

/-- Python's substring test `w in s` on strings. -/
def strHas (s w : String) : Bool :=
  isSub w.data s.data

/-- Spec-level reading of `w in s`: `s` decomposes around an occurrence of
`w`. -/
def Contains (s w : String) : Prop :=
  ∃ a b : String, s = a ++ w ++ b

/-- Python `str.lower()` (ASCII model). -/
def pyLower (s : String) : String :=
  ⟨s.data.map Char.toLower⟩

/-- Python `str.title()` (ASCII model): an alphabetic character is uppercased
when the previous character is not alphabetic and lowercased otherwise. The
flag records whether the previous character was alphabetic. -/
def titleAux : Bool → List Char → List Char
  | _, [] => []
  | prevAlpha, c :: rest =>
    if c.isAlpha then (if prevAlpha then c.toLower else c.toUpper) :: titleAux true rest
    else c :: titleAux false rest

/-- Python `str.title()` on `String`. -/
def pyTitle (s : String) : String :=
  ⟨titleAux false s.data⟩

/-- `GradCafeDataCleaner._standardize_decision_status`: empty input maps to
`""`; otherwise the input is lowercased and stripped, matched against keyword
sets in order (accept/admit, reject/den, wait/list, interview), with a
title-cased fallback. -/
def standardize_decision_status (status : String) : String :=
  if status = "" then ""
  else
    let t := pyStrip (pyLower status)
    if strHas t "accept" || strHas t "admit" then "Accepted"
    else if strHas t "reject" || strHas t "den" then "Rejected"
    else if strHas t "wait" || strHas t "list" then "Waitlisted"
    else if strHas t "interview" then "Interview"
    else pyTitle t

/-- Match exactly `n` characters satisfying `p` at the head of the list;
returns the matched span and the remainder. -/
def takeExact (n : Nat) (p : Char → Bool) (l : List Char) : Option (List Char × List Char) :=
  let t := l.take n
  if t.length = n && t.all p then some (t, l.drop n) else none

/-- Match regex `\s+` at the head of the list: at least one whitespace
character, consuming the maximal run. In every pattern below the token after
`\s+` cannot match whitespace, so maximal munch is exact. -/
def wsPlus (l : List Char) : Option (List Char) :=
  match l with
  | c :: rest => if pySpace c then some (rest.dropWhile pySpace) else none
  | [] => none

/-- Match one literal character at the head of the list. -/
def expectChar (c : Char) : List Char → Option (List Char)
  | d :: rest => if d = c then some rest else none
  | [] => none

/-- Leftmost regex search: try the position matcher `m` at each position of
the list from the left. -/
def searchWith {α : Type} (m : List Char → Option α) : List Char → Option α
  | [] => m []
  | c :: rest => (m (c :: rest)).orElse fun _ => searchWith m rest

/-- `(\d{1,2})\s+(\w{3})\s+(\d{4})` at one position with the day width fixed
to `k`. -/
def matchDayMonYearLen (k : Nat) (l : List Char) : Option (String × String × String) := do
  let (d, r1) ← takeExact k Char.isDigit l
  let r2 ← wsPlus r1
  let (m, r3) ← takeExact 3 wordChar r2
  let r4 ← wsPlus r3
  let (y, _) ← takeExact 4 Char.isDigit r4
  pure (⟨d⟩, ⟨m⟩, ⟨y⟩)

/-- Date pattern `(\d{1,2})\s+(\w{3})\s+(\d{4})` at one position; the greedy
`{1,2}` tries width 2 before width 1. -/
def matchDayMonYearAt (l : List Char) : Option (String × String × String) :=
  (matchDayMonYearLen 2 l).orElse fun _ => matchDayMonYearLen 1 l

/-- `(\w{3})\s+(\d{1,2}),?\s+(\d{4})` at one position with the day width and
the presence of the optional comma fixed. -/
def matchMonDayYearLen (k : Nat) (withComma : Bool) (l : List Char) :
    Option (String × String × String) := do
  let (m, r1) ← takeExact 3 wordChar l
  let r2 ← wsPlus r1
  let (d, r3) ← takeExact k Char.isDigit r2
  let r4 ← if withComma then expectChar ',' r3 else pure r3
  let r5 ← wsPlus r4
  let (y, _) ← takeExact 4 Char.isDigit r5
  pure (⟨m⟩, ⟨d⟩, ⟨y⟩)

/-- Date pattern `(\w{3})\s+(\d{1,2}),?\s+(\d{4})` at one position; greedy
backtracking order: day width 2 before 1, comma before no comma. -/
def matchMonDayYearAt (l : List Char) : Option (String × String × String) :=
  (matchMonDayYearLen 2 true l).orElse fun _ =>
  (matchMonDayYearLen 2 false l).orElse fun _ =>
  (matchMonDayYearLen 1 true l).orElse fun _ =>
  matchMonDayYearLen 1 false l

/-- `(\d{1,2})/(\d{1,2})/(\d{4})` at one position with both widths fixed. -/
def matchSlashLen (k1 k2 : Nat) (l : List Char) : Option (String × String × String) := do
  let (m, r1) ← takeExact k1 Char.isDigit l
  let r2 ← expectChar '/' r1
  let (d, r3) ← takeExact k2 Char.isDigit r2
  let r4 ← expectChar '/' r3
  let (y, _) ← takeExact 4 Char.isDigit r4
  pure (⟨m⟩, ⟨d⟩, ⟨y⟩)

/-- Date pattern `(\d{1,2})/(\d{1,2})/(\d{4})` at one position; the later
group backtracks before the earlier one. -/
def matchSlashAt (l : List Char) : Option (String × String × String) :=
  (matchSlashLen 2 2 l).orElse fun _ =>
  (matchSlashLen 2 1 l).orElse fun _ =>
  (matchSlashLen 1 2 l).orElse fun _ =>
  matchSlashLen 1 1 l

/-- `(\d{4})-(\d{1,2})-(\d{1,2})` at one position with both widths fixed. -/
def matchIsoLen (k1 k2 : Nat) (l : List Char) : Option (String × String × String) := do
  let (y, r1) ← takeExact 4 Char.isDigit l
  let r2 ← expectChar '-' r1
  let (m, r3) ← takeExact k1 Char.isDigit r2
  let r4 ← expectChar '-' r3
  let (d, _) ← takeExact k2 Char.isDigit r4
  pure (⟨y⟩, ⟨m⟩, ⟨d⟩)

/-- Date pattern `(\d{4})-(\d{1,2})-(\d{1,2})` at one position. -/
def matchIsoAt (l : List Char) : Option (String × String × String) :=
  (matchIsoLen 2 2 l).orElse fun _ =>
  (matchIsoLen 2 1 l).orElse fun _ =>
  (matchIsoLen 1 2 l).orElse fun _ =>
  matchIsoLen 1 1 l

/-- Python `str.zfill(2)` on an unsigned digit string. -/
def zfill2 (s : String) : String :=
  if s.length ≥ 2 then s else ⟨List.replicate (2 - s.length) '0'⟩ ++ s

/-- `GradCafeDataCleaner._clean_date`: tries the four date patterns in order
on the cleaned text and reformats the first match; returns the cleaned text
unchanged when none matches. No step of the reformatting can raise, so the
source's `try`/`except continue` is dead code here. -/
def clean_date (s : String) : String :=
  if s = "" then ""
  else
    let t := clean_text s
    match searchWith matchDayMonYearAt t.data with
    | some (d, m, y) => d ++ " " ++ m ++ " " ++ y
    | none =>
    match searchWith matchMonDayYearAt t.data with
    | some (m, d, y) => d ++ " " ++ m ++ " " ++ y
    | none =>
    match searchWith matchSlashAt t.data with
    | some (m, d, y) => zfill2 d ++ "/" ++ zfill2 m ++ "/" ++ y
    | none =>
    match searchWith matchIsoAt t.data with
    | some (y, m, d) => d ++ "/" ++ m ++ "/" ++ y
    | none => t

/-- Value of a digit string. -/
def digitsToNat (l : List Char) : Nat :=
  l.foldl (fun n c => 10 * n + (c.toNat - '0'.toNat)) 0

/-- Leftmost match of `(\d+\.?\d*)`: the integer digits and the (possibly
empty) fraction digits of the first decimal literal in the list. -/
def findNum : List Char → Option (List Char × List Char)
  | [] => none
  | c :: rest =>
    if c.isDigit then
      let d1 := (c :: rest).takeWhile Char.isDigit
      let r1 := (c :: rest).dropWhile Char.isDigit
      match r1 with
      | '.' :: r2 => some (d1, r2.takeWhile Char.isDigit)
      | _ => some (d1, [])
    else findNum rest

/-- Leftmost match of `(\d+)`: the first maximal digit run. -/
def findInt : List Char → Option (List Char)
  | [] => none
  | c :: rest =>
    if c.isDigit then some ((c :: rest).takeWhile Char.isDigit) else findInt rest

/-- Round the fraction `num / den` to the nearest natural number, ties to
even: the rounding used both by binary64 round-to-nearest and by CPython's
correctly-rounded fixed-point float formatting. -/
def roundHalfEvenFrac (num den : Nat) : Nat :=
  let q := num / den
  let r := num % den
  if 2 * r < den then q
  else if den < 2 * r then q + 1
  else if q % 2 = 0 then q else q + 1

/-- Round a rational to the nearest integer, ties to even: the same rounding
stated over `ℚ`, used in theorem statements. -/
def roundHalfEven (q : ℚ) : ℤ :=
  let f := ⌊q⌋
  if q - f < 1 / 2 then f
  else if (1 : ℚ) / 2 < q - f then f + 1
  else if f % 2 = 0 then f else f + 1

/-- Two-digit zero-padded decimal rendering of a natural number below 100. -/
def natPad2 (n : Nat) : String :=
  if n < 10 then "0" ++ toString n else toString n

/-- Python `f"{x:.2f}"` for a nonnegative `float` whose exact value is
`num / den` (for a binary64, `den` is a power of two), computed in `ℕ` so
that it reduces in the kernel. CPython formats a `float` by rounding its
exact binary value to the requested number of decimal digits, ties to even
(the David Gay correctly-rounded conversion), which on the exact fraction is
`roundHalfEvenFrac (num * 100) den`. -/
def fmt2Frac (num den : Nat) : String :=
  let n := roundHalfEvenFrac (num * 100) den
  toString (n / 100) ++ "." ++ natPad2 (n % 100)

/-- Python `f"{x:.1f}"` for a nonnegative `float` whose exact value is
`num / den`; the same correctly-rounded conversion at one decimal digit. -/
def fmt1Frac (num den : Nat) : String :=
  let n := roundHalfEvenFrac (num * 10) den
  toString (n / 10) ++ "." ++ toString (n % 10)

/-- Python `f"{x:.2f}"` of a `float` with exact value `q ≥ 0`, stated over
`ℚ`; used in theorem statements. -/
def fmt2 (q : ℚ) : String :=
  let n := (roundHalfEven (q * 100)).toNat
  toString (n / 100) ++ "." ++ natPad2 (n % 100)

/-- Python `f"{x:.1f}"` of a `float` with exact value `q ≥ 0`, stated over
`ℚ`; used in theorem statements. -/
def fmt1 (q : ℚ) : String :=
  let n := (roundHalfEven (q * 10)).toNat
  toString (n / 10) ++ "." ++ toString (n % 10)

/-- `⌊log₂ n⌋` (`0` for `n ≤ 1`), fuelled so that it reduces in the kernel:
each step halves `n`, so `n` fuel always suffices. -/
def log2Fuel : Nat → Nat → Nat
  | 0, _ => 0
  | fuel + 1, n => if 2 ≤ n then log2Fuel fuel (n / 2) + 1 else 0

/-- `⌊log₂ n⌋` (`0` for `n ≤ 1`). -/
def natLog2 (n : Nat) : Nat :=
  log2Fuel n n

/-- Exact test `2^k ≤ num / den` for an integer `k` and positive naturals. -/
def pow2le (k : Int) (num den : Nat) : Bool :=
  if 0 ≤ k then 2 ^ k.toNat * den ≤ num else den ≤ num * 2 ^ (-k).toNat

/-- `⌊log₂ (num / den)⌋` for positive `num` and `den`: the unique `e` with
`2^e ≤ num / den < 2^(e+1)`. The difference of the integer logs is either
that `e` or `e + 1`, and one exact comparison decides which. -/
def floorLogRat (num den : Nat) : Int :=
  let k : Int := (natLog2 num : Int) - (natLog2 den : Int)
  if pow2le k num den then k else k - 1

/-- CPython `float(...)` of the nonnegative fraction `num / den` (`den > 0`):
the exact value of the nearest binary64, returned as a fraction `(n, d)`
with `d` a power of two. Parsing a decimal literal in CPython is correctly
rounded: round to nearest at 53 significant bits, ties to even, with
gradual underflow below `2^-1022` (the significand grid is clamped at
`2^-1074`) and overflow to `+inf` when the rounded value reaches `2^1024`.
`+inf` is modelled by the sentinel value `2^1100`, which is larger than
every finite binary64; the only things this program ever does with an
out-of-range parse are order comparisons against small bounds, on which the
sentinel behaves exactly like `float('inf')`. The same function models the
correctly-rounded result of the binary64 division `x / 10.0`. -/
def pyFloat (num den : Nat) : Nat × Nat :=
  if num = 0 then (0, 1)
  else
    let e : Int := floorLogRat num den
    let u : Int := max (e - 52) (-1074)
    if 0 ≤ u then
      let m := roundHalfEvenFrac num (den * 2 ^ u.toNat)
      if 2 ^ 1024 ≤ m * 2 ^ u.toNat then (2 ^ 1100, 1) else (m * 2 ^ u.toNat, 1)
    else
      (roundHalfEvenFrac (num * 2 ^ (-u).toNat) den, 2 ^ (-u).toNat)

/-- `GradCafeDataCleaner._clean_gpa`: extract the first decimal number of
the cleaned text and parse it with `float(...)` (binary64, modelled exactly
by `pyFloat`); keep values in `[0, 4]` formatted to two decimals, rescale
values in `(4, 10]` by the binary64 computation `(value / 10.0) * 4.0` —
one correctly-rounded division, then an exact multiplication by 4 — and
discard everything else (including an overflowed parse) to `""`. The parsed
`float` is nonnegative, so the source's lower bound `0.0 <= gpa_value` is
always true, and its `except ValueError` is unreachable because the regex
group always parses. Comparisons against `4.0` and `10.0` are exact. -/
def clean_gpa (s : String) : String :=
  if s = "" then ""
  else
    let t := clean_text s
    match findNum t.data with
    | none => ""
    | some (d1, d2) =>
      let f := pyFloat (digitsToNat d1 * 10 ^ d2.length + digitsToNat d2) (10 ^ d2.length)
      if f.1 ≤ 4 * f.2 then fmt2Frac f.1 f.2
      else if f.1 ≤ 10 * f.2 then
        let g := pyFloat f.1 (f.2 * 10)
        fmt2Frac (g.1 * 4) g.2
      else ""

/-- `GradCafeDataCleaner._clean_gre_score`: extract the first integer of the
cleaned text; keep it when inside `[130, 170]` or `[200, 800]`, else `""`. -/
def clean_gre_score (s : String) : String :=
  if s = "" then ""
  else
    let t := clean_text s
    match findInt t.data with
    | none => ""
    | some d =>
      let n := digitsToNat d
      if 130 ≤ n ∧ n ≤ 170 then toString n
      else if 200 ≤ n ∧ n ≤ 800 then toString n
      else ""

/-- `GradCafeDataCleaner._clean_gre_aw`: extract the first decimal number of
the cleaned text, parse it with `float(...)` (binary64, modelled exactly by
`pyFloat`), and keep values in `[0, 6]` at one decimal place, else `""`. -/
def clean_gre_aw (s : String) : String :=
  if s = "" then ""
  else
    let t := clean_text s
    match findNum t.data with
    | none => ""
    | some (d1, d2) =>
      let f := pyFloat (digitsToNat d1 * 10 ^ d2.length + digitsToNat d2) (10 ^ d2.length)
      if f.1 ≤ 6 * f.2 then fmt1Frac f.1 f.2 else ""

/-- `GradCafeDataCleaner._clean_degree_type`: keyword containment on the
cleaned, lowercased text with a title-cased fallback. -/
def clean_degree_type (s : String) : String :=
  if s = "" then ""
  else
    let t := pyLower (clean_text s)
    if strHas t "phd" || strHas t "ph.d" || strHas t "doctorate" || strHas t "doctoral" then
      "PhD"
    else if strHas t "masters" || strHas t "master" || strHas t "ms" || strHas t "m.s" ||
        strHas t "ma" || strHas t "m.a" then
      "Masters"
    else if strHas t "bachelor" || strHas t "undergrad" || strHas t "bs" || strHas t "ba" then
      "Bachelors"
    else pyTitle t

/-- Regex `(20\d{2})` at one position. -/
def yearAt (l : List Char) : Option (List Char) :=
  match l with
  | '2' :: '0' :: a :: b :: _ => if a.isDigit && b.isDigit then some ['2', '0', a, b] else none
  | _ => none

/-- `GradCafeDataCleaner._clean_semester_year`: year via the leftmost
`(20\d{2})` match, semester via keyword containment; returns
`(semester, year)`. -/
def clean_semester_year (s : String) : String × String :=
  if s = "" then ("", "")
  else
    let t := pyLower (clean_text s)
    let year : String :=
      match searchWith yearAt t.data with
      | some y => ⟨y⟩
      | none => ""
    let sem : String :=
      if strHas t "fall" || strHas t "autumn" then "Fall"
      else if strHas t "spring" then "Spring"
      else if strHas t "summer" then "Summer"
      else if strHas t "winter" then "Winter"
      else ""
    (sem, year)

/-- Python `str.split(sep)` for a non-empty separator, on character lists,
fuelled so that it reduces in the kernel: split at each leftmost,
non-overlapping occurrence of `sep`. Each step consumes at least one
character, so `l.length` fuel suffices. -/
def splitOnFuel (sep : List Char) : Nat → List Char → List (List Char)
  | _, [] => [[]]
  | 0, l => [l]
  | fuel + 1, c :: rest =>
    if sep ≠ [] && sep.isPrefixOf (c :: rest) then
      [] :: splitOnFuel sep fuel (List.drop (sep.length - 1) rest)
    else
      match splitOnFuel sep fuel rest with
      | [] => [[c]]
      | h :: t => (c :: h) :: t

/-- Python `str.split(sep)` on character lists. -/
def splitOnSub (sep l : List Char) : List (List Char) :=
  splitOnFuel sep l.length l

/-- A raw scraped record: the 15 string fields read by `clean_entry` via
`entry.get(key, '')`, which are exactly the 15 keys produced by
`GradCafeScraper._extract_entry_data`. A missing dictionary key defaults to
`""`, so string-valued raw dictionaries are modelled by this structure with
`""` for absent fields. -/
structure RawEntry where
  program_name : String := ""
  university : String := ""
  comments : String := ""
  url : String := ""
  applicant_status : String := ""
  date_added : String := ""
  acceptance_date : String := ""
  rejection_date : String := ""
  semester_year : String := ""
  international_american : String := ""
  gpa : String := ""
  gre_verbal : String := ""
  gre_score : String := ""
  gre_aw : String := ""
  degree_type : String := ""
deriving DecidableEq, Repr

/-- A cleaned record: the 16 keys written by `clean_entry`. -/
structure CleanRecord where
  program_name : String := ""
  university : String := ""
  comments : String := ""
  url : String := ""
  applicant_status : String := ""
  date_added : String := ""
  acceptance_date : String := ""
  rejection_date : String := ""
  semester : String := ""
  year : String := ""
  international_american : String := ""
  gpa : String := ""
  gre_verbal : String := ""
  gre_quantitative : String := ""
  gre_aw : String := ""
  degree_type : String := ""
deriving DecidableEq, Repr

/-- The record constructed by the body of `clean_entry` before validation.
`gre_quantitative` is parsed from the combined `gre_score` string: when it
contains `"Q:"`, the text after the last `"Q:"` and before the next comma is
fed to the GRE parser, else `""`. -/
def build_cleaned (e : RawEntry) : CleanRecord :=
  let intl := clean_text e.international_american
  let sy := clean_semester_year e.semester_year
  { program_name := clean_text e.program_name
    university := clean_text e.university
    comments := clean_text e.comments
    url := e.url
    applicant_status := standardize_decision_status e.applicant_status
    date_added := clean_date e.date_added
    acceptance_date := clean_date e.acceptance_date
    rejection_date := clean_date e.rejection_date
    semester := sy.1
    year := sy.2
    international_american :=
      if pyLower intl = "international" || pyLower intl = "foreign" then "International"
      else if pyLower intl = "domestic" || pyLower intl = "american" || pyLower intl = "usa" ||
          pyLower intl = "us" then "American"
      else ""
    gpa := clean_gpa e.gpa
    gre_verbal := clean_gre_score e.gre_verbal
    gre_quantitative :=
      clean_gre_score
        (if strHas e.gre_score "Q:" then
          ⟨(splitOnSub "Q:".data e.gre_score.data).getLastD [] |>.takeWhile (fun c => c ≠ ',')⟩
        else "")
    gre_aw := clean_gre_aw e.gre_aw
    degree_type := clean_degree_type e.degree_type }

/-- `GradCafeDataCleaner._validate_entry`: both `university` and
`program_name` must be truthy (non-empty) and must not strip to `""`;
checked in that field order. -/
def validate_entry (c : CleanRecord) : Bool :=
  !(c.university = "" || pyStrip c.university = "") &&
  !(c.program_name = "" || pyStrip c.program_name = "")

/-- `GradCafeDataCleaner.clean_entry`: build the cleaned record and validate
it. Every embedded parser is total, so the source's `except Exception`
branch (which also yields `None`) is unreachable on string-valued input. -/
def clean_entry (e : RawEntry) : Option CleanRecord :=
  let c := build_cleaned e
  if validate_entry c then some c else none

/-- `GradCafeDataCleaner`'s mutable cleaning statistics. The
`fields_cleaned` dictionary created by `__init__` is never read or written
anywhere in the source and is omitted. -/
structure CleaningStats where
  total_entries : Nat
  cleaned_entries : Nat
  removed_entries : Nat
deriving DecidableEq, Repr

/-- The statistics of a freshly constructed `GradCafeDataCleaner`. -/
def initStats : CleaningStats :=
  { total_entries := 0, cleaned_entries := 0, removed_entries := 0 }

/-- One iteration of `clean_data`'s loop: append the cleaned record and bump
`cleaned_entries`, or bump `removed_entries`. -/
def cleanStep (acc : List CleanRecord × CleaningStats) (e : RawEntry) :
    List CleanRecord × CleaningStats :=
  match clean_entry e with
  | some c => (acc.1 ++ [c], { acc.2 with cleaned_entries := acc.2.cleaned_entries + 1 })
  | none => (acc.1, { acc.2 with removed_entries := acc.2.removed_entries + 1 })

/-- `GradCafeDataCleaner.clean_data` on an instance whose statistics are
`stats`: `total_entries` is overwritten with the input length and
`cleaned_data` is reset to `[]`, but `cleaned_entries` and `removed_entries`
keep their previous values and are incremented per record. Returns the new
`cleaned_data` and the new statistics. -/
def clean_data (stats : CleaningStats) (raw : List RawEntry) :
    List CleanRecord × CleaningStats :=
  raw.foldl cleanStep ([], { stats with total_entries := raw.length })

/-- Feeding a cleaned record back to `clean_entry` as a raw dictionary:
keys shared with the raw schema keep their values; the raw-only keys
`semester_year` and `gre_score` are absent from a cleaned record, so
`entry.get(...)` yields `""` for them. -/
def reinput (c : CleanRecord) : RawEntry :=
  { program_name := c.program_name
    university := c.university
    comments := c.comments
    url := c.url
    applicant_status := c.applicant_status
    date_added := c.date_added
    acceptance_date := c.acceptance_date
    rejection_date := c.rejection_date
    semester_year := ""
    international_american := c.international_american
    gpa := c.gpa
    gre_verbal := c.gre_verbal
    gre_score := ""
    gre_aw := c.gre_aw
    degree_type := c.degree_type }

/-!
Embedding of `GradCafeScraper` (`scrape.py`). A parsed `<tr>` element is
modelled by the data `_extract_entry_data` reads from it: the
`get_text(strip=True)` of each of its `<td>` cells, the `href` attributes of
its `<a>` descendants in document order (links without an `href` omitted),
and the row's own `get_text(strip=True)`.
-/

structure Row where
  cells : List String
  hrefs : List String := []
  text : String := ""
deriving DecidableEq, Repr

/-- The fixed ordered degree keyword list of `_extract_entry_data`. -/
def degreeKeywords : List String :=
  ["Masters", "PhD", "MS", "MA", "Doctorate", "Bachelors", "BS", "BA"]

/-- The program/degree split of `_extract_entry_data`: for non-empty program
text, the first keyword contained in the text splits it; the part before the
first occurrence, stripped, is the program name and the keyword is the
degree type. When no keyword matches, or the stripped prefix is empty, the
full program text is used as the program name. Returns
`(program_name, degree_type)`. -/
def parseProgram (programText : String) : String × String :=
  if programText = "" then ("", "")
  else
    match degreeKeywords.find? (fun d => strHas programText d) with
    | none => (programText, "")
    | some d =>
      let pn := pyStrip ⟨(splitOnSub d.data programText.data).headD []⟩
      (if pn = "" then programText else pn, d)

/-- Regex `(Accepted|Rejected|Waitlisted|Interview)\s+on\s+(.+)`: `(.+)` is
one or more non-newline characters, greedy. -/
def dotPlus (l : List Char) : Option String :=
  let t := l.takeWhile (fun c => c ≠ '\n')
  if t = [] then none else some ⟨t⟩

/-- Match `\s+(.+)` with the greedy backtracking of `\s+` against the
newline-excluding `.`: try consuming `j` whitespace characters for `j` from
the maximal run length down to 1. -/
def wsRestAux (r : List Char) : Nat → Option String
  | 0 => none
  | j + 1 =>
    match dotPlus (r.drop (j + 1)) with
    | some s => some s
    | none => wsRestAux r j

/-- Match `\s+(.+)` at the head of the list. -/
def wsThenRest (r : List Char) : Option String :=
  wsRestAux r (r.takeWhile pySpace).length

/-- One decision keyword followed by `\s+on\s+(.+)` at one position. -/
def decisionKw (kw : String) (l : List Char) : Option (String × String) := do
  if kw.data.isPrefixOf l then
    let r1 ← wsPlus (l.drop kw.length)
    let r2 ← expectChar 'o' r1
    let r3 ← expectChar 'n' r2
    let d ← wsThenRest r3
    pure (kw, d)
  else none

/-- `(Accepted|Rejected|Waitlisted|Interview)\s+on\s+(.+)` at one position,
alternatives tried in order. -/
def decisionAt (l : List Char) : Option (String × String) :=
  (decisionKw "Accepted" l).orElse fun _ =>
  (decisionKw "Rejected" l).orElse fun _ =>
  (decisionKw "Waitlisted" l).orElse fun _ =>
  decisionKw "Interview" l

/-- `(Fall|Spring|Summer|Winter)\s+(\d{4})` for one season at one
position. -/
def seasonKw (kw : String) (l : List Char) : Option (String × String) := do
  if kw.data.isPrefixOf l then
    let r1 ← wsPlus (l.drop kw.length)
    let (y, _) ← takeExact 4 Char.isDigit r1
    pure (kw, ⟨y⟩)
  else none

/-- `(Fall|Spring|Summer|Winter)\s+(\d{4})` at one position. -/
def seasonAt (l : List Char) : Option (String × String) :=
  (seasonKw "Fall" l).orElse fun _ =>
  (seasonKw "Spring" l).orElse fun _ =>
  (seasonKw "Summer" l).orElse fun _ =>
  seasonKw "Winter" l

/-- `GPA\s+([\d.]+)` at one position: the literal `GPA`, whitespace, then a
maximal non-empty run of digits and dots. -/
def gpaAt (l : List Char) : Option String := do
  let r1 ← expectChar 'G' l
  let r2 ← expectChar 'P' r1
  let r3 ← expectChar 'A' r2
  let r4 ← wsPlus r3
  let t := r4.takeWhile (fun c => c.isDigit || c = '.')
  if t = [] then none else pure ⟨t⟩

/-- `GRE\s+<tag>[:\s]*(<class>+)` at one position, where `<tag>` is `V`, `Q`
or `AW` and `<class>` is digits (for V and Q) or digits-and-dots (for
AW). -/
def greAt (tag : List Char) (digitsOnly : Bool) (l : List Char) : Option String := do
  let r1 ← expectChar 'G' l
  let r2 ← expectChar 'R' r1
  let r3 ← expectChar 'E' r2
  let r4 ← wsPlus r3
  if tag.isPrefixOf r4 then
    let r5 := (r4.drop tag.length).dropWhile (fun c => c = ':' || pySpace c)
    let t := r5.takeWhile (fun c => c.isDigit || (!digitsOnly && c = '.'))
    if t = [] then none else pure ⟨t⟩
  else none

/-- `https://www.thegradcafe.com`, the scraper's `base_url`. -/
def baseUrl : String := "https://www.thegradcafe.com"

/-- The entry-URL extraction of `_extract_entry_data`: the first non-empty
`href` containing `result`, absolutized against the base URL when it starts
with `/`. -/
def entryUrl (hrefs : List String) : String :=
  match hrefs.find? (fun h => h ≠ "" && strHas h "result") with
  | some h => if h.startsWith "/" then baseUrl ++ h else h
  | none => ""

/-- The detail-row fields parsed by `_extract_entry_data` from a consumed
detail row's text: `(semester_year, international_status, gpa, gre_verbal,
gre_quant, gre_aw)`. -/
def parseDetail (detailText : String) : String × String × String × String × String × String :=
  let d := detailText.data
  let semester_year :=
    match searchWith seasonAt d with
    | some (s, y) => s ++ " " ++ y
    | none => ""
  let intl :=
    if strHas detailText "International" then "International"
    else if strHas detailText "American" || strHas detailText "Domestic" then "American"
    else ""
  let gpa := (searchWith gpaAt d).getD ""
  let greV := (searchWith (greAt ['V'] true) d).getD ""
  let greQ := (searchWith (greAt ['Q'] true) d).getD ""
  let greAw := (searchWith (greAt ['A', 'W'] false) d).getD ""
  (semester_year, intl, gpa, greV, greQ, greAw)

/-- `GradCafeScraper._extract_entry_data`: `None` when the row has fewer
than 4 cells, else the raw record assembled from the row (and from the
following row's text when the caller passes it as a detail row of exactly
one cell). The source's `except Exception` branch is unreachable in this
total model. -/
def extract_entry_data (row : Row) (nextRow : Option Row) : Option RawEntry :=
  if row.cells.length < 4 then none
  else
    let institution := row.cells.getD 0 ""
    let pp := parseProgram (row.cells.getD 1 "")
    let date_added := row.cells.getD 2 ""
    let decisionText := row.cells.getD 3 ""
    let dec :=
      if decisionText = "" then ("", "")
      else
        match searchWith decisionAt decisionText.data with
        | some (st, dt) => (st, dt)
        | none => (decisionText, "")
    let detail :=
      match nextRow with
      | some nr => if nr.cells.length = 1 then parseDetail nr.text else ("", "", "", "", "", "")
      | none => ("", "", "", "", "", "")
    let (semester_year, intl, gpa, greV, greQ, greAw) := detail
    some
      { program_name := pp.1
        university := institution
        comments := ""
        date_added := date_added
        url := entryUrl row.hrefs
        applicant_status := dec.1
        acceptance_date := if pyLower dec.1 = "accepted" then dec.2 else ""
        rejection_date := if pyLower dec.1 = "rejected" then dec.2 else ""
        semester_year := semester_year
        international_american := intl
        gre_score := if greV ≠ "" || greQ ≠ "" then "V:" ++ greV ++ ", Q:" ++ greQ else ""
        gre_verbal := greV
        degree_type := pp.2
        gpa := gpa
        gre_aw := greAw }

/-- The row-pairing loop of `GradCafeScraper._scrape_page` over the rows
after the header row: a row with at least 4 cells is a primary row; the
immediately following row is consumed as its detail row exactly when it has
exactly 1 cell, and is then skipped as a candidate primary row; rows with
fewer than 4 cells are otherwise skipped. -/
def scrape_page_rows : List Row → List RawEntry
  | [] => []
  | [r] =>
    if 4 ≤ r.cells.length then (extract_entry_data r none).toList else []
  | r :: r2 :: rest =>
    if 4 ≤ r.cells.length then
      if r2.cells.length = 1 then
        (extract_entry_data r (some r2)).toList ++ scrape_page_rows rest
      else
        (extract_entry_data r none).toList ++ scrape_page_rows (r2 :: rest)
    else scrape_page_rows (r2 :: rest)

/-- The pagination loop of `GradCafeScraper.scrape_data`, with the page
fetch-and-extract abstracted as `fetch`. Returns the accumulated data and
the number of pages fetched. The loop body increments the page counter and
breaks when it exceeds 1000, so `1001 - pageNum` decreases on every
recursive call: the loop terminates for every `fetch`. -/
def scrapeLoop (fetch : Nat → List RawEntry) (maxEntries : Nat) (pageNum totalEntries pagesFetched : Nat) (acc : List RawEntry) : List RawEntry × Nat :=
  if totalEntries < maxEntries then
    if fetch pageNum = [] then (acc, pagesFetched + 1)
    else if maxEntries ≤ totalEntries + (fetch pageNum).length then
      (acc ++ fetch pageNum, pagesFetched + 1)
    else if h : 1000 < pageNum + 1 then (acc ++ fetch pageNum, pagesFetched + 1)
    else
      scrapeLoop fetch maxEntries (pageNum + 1) (totalEntries + (fetch pageNum).length)
        (pagesFetched + 1) (acc ++ fetch pageNum)
  else (acc, pagesFetched)
termination_by 1001 - pageNum
decreasing_by omega

/-- `GradCafeScraper.scrape_data`: abort with no data when the robots.txt
check fails, else run the pagination loop from page 1. -/
def scrape_data (robotsOk : Bool) (fetch : Nat → List RawEntry) (maxEntries : Nat) :
    List RawEntry × Nat :=
  if robotsOk then scrapeLoop fetch maxEntries 1 0 0 [] else ([], 0)

/-- The row-pairing discipline of page extraction, stated as a relation
between the row list after the header and the emitted records, following the
specification's wording: a primary row (at least 4 cells) emits exactly one
record; the row immediately after a primary row is consumed as its detail
row exactly when it has exactly 1 cell, and is then skipped as a candidate
primary row; a row with fewer than 4 cells that is not consumed as a detail
row emits nothing; records appear in row order. -/
inductive PageEmits : List Row → List RawEntry → Prop where
  | nil : PageEmits [] []
  | primaryWithDetail {r r2 : Row} {rest : List Row} {d : RawEntry} {out : List RawEntry} :
      4 ≤ r.cells.length → r2.cells.length = 1 →
      extract_entry_data r (some r2) = some d →
      PageEmits rest out →
      PageEmits (r :: r2 :: rest) (d :: out)
  | primaryNoDetail {r r2 : Row} {rest : List Row} {d : RawEntry} {out : List RawEntry} :
      4 ≤ r.cells.length → r2.cells.length ≠ 1 →
      extract_entry_data r none = some d →
      PageEmits (r2 :: rest) out →
      PageEmits (r :: r2 :: rest) (d :: out)
  | primaryAtEnd {r : Row} {d : RawEntry} :
      4 ≤ r.cells.length →
      extract_entry_data r none = some d →
      PageEmits [r] [d]
  | skipShort {r : Row} {rest : List Row} {out : List RawEntry} :
      r.cells.length < 4 → PageEmits rest out → PageEmits (r :: rest) out

/-- A raw record whose `university` cleans to the non-empty, all-whitespace
string `" "`: used to separate "non-empty after cleaning" from "non-blank
after cleaning". -/
def entryBlankUniversity : RawEntry :=
  { university := "@ @", program_name := "X" }

/-- A minimal raw record that passes validation. -/
def entryGood : RawEntry :=
  { university := "U", program_name := "P" }

/-- A valid raw record carrying a semester/year and a combined GRE score. -/
def entrySemGre : RawEntry :=
  { university := "U", program_name := "P", semester_year := "Fall 2025",
    gre_score := "V:165, Q:160" }

/-- A cleaned record with populated `semester`, `year` and
`gre_quantitative`, used to witness the re-cleaning behaviour. -/
def cleanedSample : CleanRecord :=
  { university := "U", program_name := "P", semester := "Fall", year := "2025",
    gre_quantitative := "160", url := "https://example.org/result/1" }

/-- A primary row whose program cell is exactly a degree keyword. -/
def rowKeywordOnly : Row :=
  { cells := ["MIT", "Masters", "12 Jan", "Accepted on 1 Jun"] }

/-! ## General lemmas about the cleaner -/

theorem pyStrip_empty : pyStrip "" = "" := rfl

theorem build_cleaned_university (e : RawEntry) :
    (build_cleaned e).university = clean_text e.university := rfl

theorem build_cleaned_program_name (e : RawEntry) :
    (build_cleaned e).program_name = clean_text e.program_name := rfl

theorem strip_or_iff (u : String) : (u = "" ∨ pyStrip u = "") ↔ pyStrip u = "" := by
  constructor
  · rintro (h | h)
    · rw [h]
      rfl
    · exact h
  · exact Or.inr

theorem cleanStep_foldl (raw : List RawEntry) :
    ∀ (acc : List CleanRecord) (st : CleaningStats),
      raw.foldl cleanStep (acc, st) =
        (acc ++ raw.filterMap clean_entry,
          { total_entries := st.total_entries,
            cleaned_entries := st.cleaned_entries + (raw.filterMap clean_entry).length,
            removed_entries :=
              st.removed_entries + (raw.length - (raw.filterMap clean_entry).length) }) := by
  induction raw with
  | nil =>
    intro acc st
    simp
  | cons e rest ih =>
    intro acc st
    have hle : (rest.filterMap clean_entry).length ≤ rest.length :=
      List.length_filterMap_le _ _
    rw [List.foldl_cons]
    cases hce : clean_entry e with
    | some c =>
      simp only [cleanStep, hce, ih, List.filterMap_cons_some hce, Prod.mk.injEq,
        CleaningStats.mk.injEq, List.length_cons, List.append_assoc,
        List.singleton_append]
      exact ⟨trivial, trivial, by omega, by omega⟩
    | none =>
      simp only [cleanStep, hce, ih, List.filterMap_cons_none hce, Prod.mk.injEq,
        CleaningStats.mk.injEq, List.length_cons]
      exact ⟨trivial, trivial, trivial, by omega⟩

theorem clean_data_records (stats : CleaningStats) (raw : List RawEntry) :
    (clean_data stats raw).1 = raw.filterMap clean_entry := by
  unfold clean_data
  rw [cleanStep_foldl]
  simp

theorem clean_data_stats (stats : CleaningStats) (raw : List RawEntry) :
    (clean_data stats raw).2 =
      { total_entries := raw.length,
        cleaned_entries := stats.cleaned_entries + (raw.filterMap clean_entry).length,
        removed_entries :=
          stats.removed_entries + (raw.length - (raw.filterMap clean_entry).length) } := by
  unfold clean_data
  rw [cleanStep_foldl]

theorem validate_build_iff (e : RawEntry) :
    validate_entry (build_cleaned e) = true ↔
      pyStrip (clean_text e.university) ≠ "" ∧ pyStrip (clean_text e.program_name) ≠ "" := by
  unfold validate_entry
  rw [build_cleaned_university, build_cleaned_program_name]
  simp only [Bool.and_eq_true, Bool.not_eq_true', Bool.or_eq_false_iff,
    decide_eq_false_iff_not]
  rw [← not_or, ← not_or, strip_or_iff, strip_or_iff]

theorem clean_entry_ne_none_iff (e : RawEntry) :
    clean_entry e ≠ none ↔
      pyStrip (clean_text e.university) ≠ "" ∧ pyStrip (clean_text e.program_name) ≠ "" := by
  rw [← validate_build_iff]
  show (if validate_entry (build_cleaned e) then some (build_cleaned e) else none) ≠ none ↔ _
  split
  next h => simp [h]
  next h => simp [h]

/-! ## Claim C1 -/

/-- C1, amended: a cleaned record appears in the output of `clean_data`
exactly for the raw records whose `university` and `program_name` are
non-blank after text cleaning, that is, strip to a non-empty string (the
claim's plain "non-empty after cleaning" is not sufficient: cleaning can
return a non-empty all-whitespace string, which validation rejects). No
other field affects admission. -/
theorem claim1_admission_rule (stats : CleaningStats) (raw : List RawEntry) :
    ((clean_data stats raw).1 = raw.filterMap clean_entry) ∧
    (∀ c : CleanRecord, c ∈ (clean_data stats raw).1 ↔ ∃ e ∈ raw, clean_entry e = some c) ∧
    (∀ e : RawEntry, clean_entry e ≠ none ↔
      pyStrip (clean_text e.university) ≠ "" ∧ pyStrip (clean_text e.program_name) ≠ "") := by
  refine ⟨clean_data_records stats raw, ?_, fun e => clean_entry_ne_none_iff e⟩
  intro c
  rw [clean_data_records, List.mem_filterMap]

/-- C1 witness: the admission rule instantiated at a concrete run. -/
theorem claim1_witness :
    (clean_data initStats [entryGood]).1 = [entryGood].filterMap clean_entry :=
  (claim1_admission_rule initStats [entryGood]).1

/-- C1 counterexample: `"@ @"` cleans to the non-empty string `" "`, and
`"X"` cleans to the non-empty `"X"`, yet the record is not admitted — the
claim's "non-empty after cleaning" rule wrongly admits it. -/
theorem claim1_counterexample :
    clean_text entryBlankUniversity.university ≠ "" ∧
    clean_text entryBlankUniversity.program_name ≠ "" ∧
    clean_entry entryBlankUniversity = none ∧
    (clean_data initStats [entryBlankUniversity]).1 = [] := by decide

/-! ## Claim C2 -/

/-- C2, amended: over any `clean_data` run, each input record increments
exactly one of `cleaned_entries` and `removed_entries` exactly once, so
their sum grows by exactly the input length, while `total_entries` is
overwritten with the input length; hence
`cleaned_entries + removed_entries = total_entries` holds after every run
started from freshly initialized statistics (first run on an instance), but
not in general after a second run on the same instance. -/
theorem claim2_stats_balance (stats : CleaningStats) (raw : List RawEntry) :
    ((clean_data stats raw).2.total_entries = raw.length) ∧
    ((clean_data stats raw).2.cleaned_entries + (clean_data stats raw).2.removed_entries =
      stats.cleaned_entries + stats.removed_entries + raw.length) ∧
    ((clean_data initStats raw).2.cleaned_entries +
        (clean_data initStats raw).2.removed_entries =
      (clean_data initStats raw).2.total_entries) := by
  have hle : (raw.filterMap clean_entry).length ≤ raw.length :=
    List.length_filterMap_le _ _
  refine ⟨?_, ?_, ?_⟩ <;> simp only [clean_data_stats, initStats] <;> omega

/-- C2 witness: the balance instantiated at a concrete first run. -/
theorem claim2_witness :
    (clean_data initStats [entryGood]).2.cleaned_entries +
      (clean_data initStats [entryGood]).2.removed_entries =
    (clean_data initStats [entryGood]).2.total_entries :=
  (claim2_stats_balance initStats [entryGood]).2.2

/-- C2 counterexample: a second run on the same instance violates the
invariant, because `total_entries` is overwritten with the new input length
while `cleaned_entries`/`removed_entries` carry over: after cleaning the
same valid record twice, the statistics read `total = 1`, `cleaned = 2`,
`removed = 0`. -/
theorem claim2_counterexample :
    (clean_data (clean_data initStats [entryGood]).2 [entryGood]).2.cleaned_entries +
      (clean_data (clean_data initStats [entryGood]).2 [entryGood]).2.removed_entries ≠
    (clean_data (clean_data initStats [entryGood]).2 [entryGood]).2.total_entries := by
  decide

/-! ## Claim C3 -/

/-- C3, amended: re-running the cleaner on its own output does not preserve
the already-valid `semester`, `year` and `gre_quantitative` values; it
resets all three to `""`, because `clean_entry` reads them from the raw-only
keys `semester_year` and `gre_score`, which a cleaned record does not carry.
Fields read back under their own key, such as `url`, are preserved. -/
theorem claim3_recleaning (c c' : CleanRecord)
    (h : clean_entry (reinput c) = some c') :
    c'.semester = "" ∧ c'.year = "" ∧ c'.gre_quantitative = "" ∧ c'.url = c.url := by
  have h' : (if validate_entry (build_cleaned (reinput c)) then
      some (build_cleaned (reinput c)) else none) = some c' := h
  split at h'
  · cases h'
    exact ⟨rfl, rfl, rfl, rfl⟩
  · cases h'

/-- C3 witness: the re-cleaning theorem instantiated at a concrete cleaned
record. -/
theorem claim3_witness :
    (build_cleaned (reinput cleanedSample)).semester = "" ∧
    (build_cleaned (reinput cleanedSample)).year = "" ∧
    (build_cleaned (reinput cleanedSample)).gre_quantitative = "" ∧
    (build_cleaned (reinput cleanedSample)).url = cleanedSample.url :=
  claim3_recleaning cleanedSample (build_cleaned (reinput cleanedSample)) (by decide)

/-- C3 counterexample: a record cleaned to `semester = "Fall"`,
`year = "2025"`, `gre_quantitative = "160"` loses all three values when the
cleaned record is fed back to the cleaner as raw input. -/
theorem claim3_counterexample :
    ((clean_entry entrySemGre).map fun c => (c.semester, c.year, c.gre_quantitative)) =
      some ("Fall", "2025", "160") ∧
    ((Option.bind (clean_entry entrySemGre) fun c => clean_entry (reinput c)).map
      fun c => (c.semester, c.year, c.gre_quantitative)) = some ("", "", "") := by
  decide

/-! ## Claim C4 -/

theorem roundHalfEvenFrac_eq (M den : Nat) (hd : 0 < den) :
    (roundHalfEvenFrac M den : ℤ) = roundHalfEven ((M : ℚ) / (den : ℚ)) := by
  have hdQ : (0 : ℚ) < den := by exact_mod_cast hd
  have hfloor : ⌊(M : ℚ) / (den : ℚ)⌋ = ((M / den : ℕ) : ℤ) := by
    have h := Rat.floor_intCast_div_natCast (M : ℤ) den
    push_cast at h
    rw [h]
    exact_mod_cast rfl
  have hdm : (M : ℚ) = (den : ℚ) * ((M / den : ℕ) : ℚ) + ((M % den : ℕ) : ℚ) := by
    exact_mod_cast congrArg (Nat.cast (R := ℚ)) (Nat.div_add_mod M den).symm
  have hfrac : (M : ℚ) / den - ((M / den : ℕ) : ℚ) = ((M % den : ℕ) : ℚ) / den := by
    rw [hdm]
    field_simp
  have h1 : (((M % den : ℕ) : ℚ) / den < 1 / 2) ↔ 2 * (M % den) < den := by
    rw [div_lt_div_iff hdQ two_pos, one_mul,
      show ((M % den : ℕ) : ℚ) * 2 = ((M % den * 2 : ℕ) : ℚ) by push_cast; ring,
      Nat.cast_lt]
    omega
  have h2 : ((1 : ℚ) / 2 < ((M % den : ℕ) : ℚ) / den) ↔ den < 2 * (M % den) := by
    rw [div_lt_div_iff two_pos hdQ, one_mul,
      show ((M % den : ℕ) : ℚ) * 2 = ((M % den * 2 : ℕ) : ℚ) by push_cast; ring,
      Nat.cast_lt]
    omega
  have h3 : (((M / den : ℕ) : ℤ) % 2 = 0) ↔ (M / den) % 2 = 0 := by
    omega
  simp only [roundHalfEvenFrac, roundHalfEven, hfloor, Int.cast_natCast, hfrac,
    h1, h2, h3]
  split_ifs <;> push_cast <;> omega

theorem fmt2Frac_eq (num den : Nat) (hd : 0 < den) :
    fmt2Frac num den = fmt2 ((num : ℚ) / den) := by
  simp only [fmt2Frac, fmt2]
  have h : (num : ℚ) / den * 100 = ((num * 100 : ℕ) : ℚ) / den := by
    push_cast; ring
  rw [h, ← roundHalfEvenFrac_eq (num * 100) den hd, Int.toNat_natCast]

theorem fmt1Frac_eq (num den : Nat) (hd : 0 < den) :
    fmt1Frac num den = fmt1 ((num : ℚ) / den) := by
  simp only [fmt1Frac, fmt1]
  have h : (num : ℚ) / den * 10 = ((num * 10 : ℕ) : ℚ) / den := by
    push_cast; ring
  rw [h, ← roundHalfEvenFrac_eq (num * 10) den hd, Int.toNat_natCast]

theorem pyFloat_den_pos (num den : Nat) : 0 < (pyFloat num den).2 := by
  simp only [pyFloat]
  split_ifs <;> simp [Nat.pos_pow_of_pos]

/-- C4: `_clean_gpa` extracts the first decimal number of the (cleaned)
input and parses it with `float(...)`; the parsed binary64 value `n / d` is
formatted to 2 decimal places when it lies in `[0, 4]`, rescaled by the
binary64 computation `(value / 10) * 4` and formatted to 2 decimal places
when it lies in `(4, 10]`, and every other case (no number at all, or a
value above 10, including an overflowed parse) yields `""`; in particular
`"3.75" ↦ "3.75"`, `"8.0" ↦ "3.20"`, `"11" ↦ ""`. CPython's binary64
`float` and its correctly-rounded tie-to-even formatting are modelled
exactly (`pyFloat`, `fmt2`); the last two example conjuncts pin the
binary64 behaviour where it differs from exact decimal rounding. -/
theorem claim4_gpa (s : String) (d1 d2 : List Char) (n d : Nat)
    (hfind : findNum (clean_text s).data = some (d1, d2))
    (hnd : pyFloat (digitsToNat d1 * 10 ^ d2.length + digitsToNat d2)
      (10 ^ d2.length) = (n, d)) :
    (((n : ℚ) / d ≤ 4) → clean_gpa s = fmt2 ((n : ℚ) / d)) ∧
    ((4 < (n : ℚ) / d ∧ (n : ℚ) / d ≤ 10) →
      ∀ n2 dd : Nat, pyFloat n (d * 10) = (n2, dd) →
        clean_gpa s = fmt2 ((n2 : ℚ) / dd * 4)) ∧
    ((10 : ℚ) < (n : ℚ) / d → clean_gpa s = "") ∧
    (∀ t : String, findNum (clean_text t).data = none → clean_gpa t = "") ∧
    clean_gpa "3.75" = "3.75" ∧ clean_gpa "8.0" = "3.20" ∧ clean_gpa "11" = "" ∧
    clean_gpa "2.675" = "2.67" ∧ clean_gpa "6.6875" = "2.67" := by
  have hnone : ∀ t : String, findNum (clean_text t).data = none → clean_gpa t = "" := by
    intro t ht
    simp only [clean_gpa, ht, ite_self]
  have hs : s ≠ "" := by
    intro hs
    have h0 : findNum (clean_text "").data = none := by decide
    rw [hs, h0] at hfind
    cases hfind
  have hd : 0 < d := by
    have h := pyFloat_den_pos (digitsToNat d1 * 10 ^ d2.length + digitsToNat d2)
      (10 ^ d2.length)
    rw [hnd] at h
    exact h
  have hdQ : (0 : ℚ) < (d : ℚ) := by exact_mod_cast hd
  have hgpa : clean_gpa s =
      (if n ≤ 4 * d then fmt2Frac n d
      else if n ≤ 10 * d then
        fmt2Frac ((pyFloat n (d * 10)).1 * 4) (pyFloat n (d * 10)).2
      else "") := by
    simp only [clean_gpa, hfind, hnd]
    rw [if_neg hs]
  have hle4 : (n : ℚ) / d ≤ 4 ↔ n ≤ 4 * d := by
    rw [div_le_iff hdQ]
    constructor
    · intro hx; exact_mod_cast hx
    · intro hx; exact_mod_cast hx
  have hle10 : (n : ℚ) / d ≤ 10 ↔ n ≤ 10 * d := by
    rw [div_le_iff hdQ]
    constructor
    · intro hx; exact_mod_cast hx
    · intro hx; exact_mod_cast hx
  refine ⟨?_, ?_, ?_, hnone, by decide, by decide, by decide, by decide, by decide⟩
  · intro hq
    rw [hgpa, if_pos (hle4.mp hq), fmt2Frac_eq n d hd]
  · intro hq n2 dd h2
    have hn4 : ¬ (n ≤ 4 * d) := by
      intro hc
      exact absurd (hle4.mpr hc) (not_le.mpr hq.1)
    have hdd : 0 < dd := by
      have h := pyFloat_den_pos n (d * 10)
      rw [h2] at h
      exact h
    rw [hgpa, if_neg hn4, if_pos (hle10.mp hq.2), h2]
    rw [fmt2Frac_eq (n2 * 4) dd hdd]
    congr 1
    push_cast
    ring
  · intro hq
    have hn4 : ¬ (n ≤ 4 * d) := by
      intro hc
      have := hle4.mpr hc
      linarith
    have hn10 : ¬ (n ≤ 10 * d) := by
      intro hc
      have := hle10.mpr hc
      linarith
    rw [hgpa, if_neg hn4, if_neg hn10]

/-- C4 witness: the GPA theorem applied at `"8.0"`: the parsed binary64
value is exactly `8 = 2^52 / 2^49 ∈ (4, 10]`, the binary64 quotient
`8.0 / 10.0` is `7205759403792794 / 2^53` (slightly above `4/5`), and the
formatted rescaled value is `"3.20"`. -/
theorem claim4_witness :
    (4 < ((4503599627370496 : ℚ) / 562949953421312) ∧
      ((4503599627370496 : ℚ) / 562949953421312) ≤ 10) ∧
    clean_gpa "8.0" =
      fmt2 ((7205759403792794 : ℚ) / 9007199254740992 * 4) :=
  ⟨by norm_num,
    (claim4_gpa "8.0" ['8'] ['0'] 4503599627370496 562949953421312
        (by decide) (by decide)).2.1
      (by norm_num) 7205759403792794 9007199254740992 (by decide)⟩

/-! ## Claim C5 -/

theorem extract_entry_data_some (r : Row) (o : Option Row) (h : 4 ≤ r.cells.length) :
    ∃ d, extract_entry_data r o = some d := by
  unfold extract_entry_data
  rw [if_neg (by omega)]
  exact ⟨_, rfl⟩

theorem pageEmits_aux :
    ∀ (n : Nat) (rows : List Row), rows.length ≤ n →
      PageEmits rows (scrape_page_rows rows) := by
  intro n
  induction n with
  | zero =>
    intro rows h
    have hnil : rows = [] := List.eq_nil_of_length_eq_zero (Nat.le_zero.mp h)
    subst hnil
    exact PageEmits.nil
  | succ n ih =>
    intro rows h
    match rows with
    | [] => exact PageEmits.nil
    | [r] =>
      by_cases h4 : 4 ≤ r.cells.length
      · obtain ⟨d, hd⟩ := extract_entry_data_some r none h4
        simp only [scrape_page_rows, if_pos h4, hd, Option.toList_some]
        exact PageEmits.primaryAtEnd h4 hd
      · simp only [scrape_page_rows, if_neg h4]
        exact PageEmits.skipShort (by omega) PageEmits.nil
    | r :: r2 :: rest =>
      simp only [List.length_cons] at h
      by_cases h4 : 4 ≤ r.cells.length
      · by_cases h1 : r2.cells.length = 1
        · obtain ⟨d, hd⟩ := extract_entry_data_some r (some r2) h4
          simp only [scrape_page_rows, if_pos h4, if_pos h1, hd, Option.toList_some,
            List.singleton_append]
          exact PageEmits.primaryWithDetail h4 h1 hd (ih rest (by omega))
        · obtain ⟨d, hd⟩ := extract_entry_data_some r none h4
          simp only [scrape_page_rows, if_pos h4, if_neg h1, hd, Option.toList_some,
            List.singleton_append]
          exact PageEmits.primaryNoDetail h4 h1 hd (ih (r2 :: rest) (by simp; omega))
      · simp only [scrape_page_rows, if_neg h4]
        exact PageEmits.skipShort (by omega) (ih (r2 :: rest) (by simp; omega))

/-- C5: the page extraction loop obeys the pairwise row discipline: one
record per row with at least 4 cells, the immediately following row consumed
as the record's detail row exactly when it has exactly 1 cell (and then
skipped as a candidate primary row), rows with fewer than 4 cells otherwise
yielding nothing, and records emitted in row order. -/
theorem claim5_page_pairing (rows : List Row) :
    PageEmits rows (scrape_page_rows rows) :=
  pageEmits_aux rows.length rows (Nat.le_refl _)

/-! ## Claim C6 -/

theorem scrapeLoop_pages_le (fetch : Nat → List RawEntry) (maxE : Nat) :
    ∀ (n pageNum total fetched : Nat) (acc : List RawEntry),
      1000 - pageNum ≤ n → pageNum ≤ 1000 →
      (scrapeLoop fetch maxE pageNum total fetched acc).2 ≤ fetched + (1001 - pageNum) := by
  intro n
  induction n with
  | zero =>
    intro pageNum total fetched acc hn hp
    rw [scrapeLoop]
    split_ifs with hguard hempty hreach hlimit
    · simp
      omega
    · simp
      omega
    · simp
      omega
    · exact absurd (by omega) hlimit
    · simp
  | succ n ih =>
    intro pageNum total fetched acc hn hp
    rw [scrapeLoop]
    split_ifs with hguard hempty hreach hlimit
    · simp
      omega
    · simp
      omega
    · simp
      omega
    · have hrec := ih (pageNum + 1) (total + (fetch pageNum).length) (fetched + 1)
        (acc ++ fetch pageNum) (by omega) (by omega)
      exact le_trans hrec (by omega)
    · simp

/-- C6: for every behaviour of the page fetcher, the scraping loop is a
total function (it terminates; see `scrapeLoop`, whose recursion is
well-founded on `1001 - pageNum` exactly because the loop breaks when the
incremented page counter exceeds 1000), stops at the first of target-count
reached / empty page / page ceiling, and fetches at most 1000 pages. -/
theorem claim6_page_ceiling (robotsOk : Bool) (fetch : Nat → List RawEntry)
    (maxEntries : Nat) :
    (scrape_data robotsOk fetch maxEntries).2 ≤ 1000 := by
  unfold scrape_data
  split
  · have h := scrapeLoop_pages_le fetch maxEntries 1000 1 0 0 [] (by omega) (by omega)
    omega
  · simp

/-! ## Claim C7 -/

theorem isSub_iff (n l : List Char) :
    isSub n l = true ↔ ∃ a b : List Char, l = a ++ n ++ b := by
  induction l with
  | nil =>
    simp only [isSub, List.isEmpty_iff]
    constructor
    · rintro rfl
      exact ⟨[], [], rfl⟩
    · rintro ⟨a, b, hab⟩
      rcases List.append_eq_nil.mp hab.symm with ⟨han, hb⟩
      exact (List.append_eq_nil.mp han).2
  | cons c rest ih =>
    simp only [isSub, Bool.or_eq_true, ih, List.isPrefixOf_iff_prefix]
    constructor
    · rintro (hpre | ⟨a, b, rfl⟩)
      · obtain ⟨t, ht⟩ := hpre
        exact ⟨[], t, by simp [← ht]⟩
      · exact ⟨c :: a, b, rfl⟩
    · rintro ⟨a, b, hab⟩
      cases a with
      | nil =>
        left
        exact ⟨b, by simpa using hab.symm⟩
      | cons a0 a' =>
        injection hab with h1 h2
        exact Or.inr ⟨a', b, h2⟩

theorem strHas_iff_contains (s w : String) : strHas s w = true ↔ Contains s w := by
  unfold strHas Contains
  rw [isSub_iff]
  constructor
  · rintro ⟨a, b, hab⟩
    refine ⟨⟨a⟩, ⟨b⟩, ?_⟩
    apply String.ext
    simpa [String.data_append] using hab
  · rintro ⟨a, b, rfl⟩
    exact ⟨a.data, b.data, by simp [String.data_append]⟩

theorem occ_cons_space {n : List Char} {c : Char} {l : List Char}
    (hc : pySpace c = true) (hn : ∀ d ∈ n, pySpace d = false) (hne : n ≠ []) :
    ((∃ a b, c :: l = a ++ n ++ b) ↔ ∃ a b, l = a ++ n ++ b) := by
  constructor
  · rintro ⟨a, b, hab⟩
    cases a with
    | nil =>
      cases n with
      | nil => exact absurd rfl hne
      | cons n0 n' =>
        injection hab with h1 h2
        exact absurd hc (by rw [h1]; simp [hn n0 (List.mem_cons_self n0 n')])
    | cons a0 a' =>
      injection hab with h1 h2
      exact ⟨a', b, h2⟩
  · rintro ⟨a, b, rfl⟩
    exact ⟨c :: a, b, rfl⟩

theorem occ_dropWhile (n : List Char) (hn : ∀ d ∈ n, pySpace d = false) (hne : n ≠ []) :
    ∀ l : List Char,
      ((∃ a b, l.dropWhile pySpace = a ++ n ++ b) ↔ ∃ a b, l = a ++ n ++ b) := by
  intro l
  induction l with
  | nil => exact Iff.rfl
  | cons c rest ih =>
    rw [List.dropWhile_cons]
    by_cases hc : pySpace c = true
    · rw [if_pos hc, ih]
      exact (occ_cons_space hc hn hne).symm
    · rw [if_neg hc]

theorem occ_reverse (n l : List Char) :
    (∃ a b, l.reverse = a ++ n ++ b) ↔ ∃ a b, l = a ++ n.reverse ++ b := by
  constructor
  · rintro ⟨a, b, hab⟩
    refine ⟨b.reverse, a.reverse, ?_⟩
    have h := congrArg List.reverse hab
    simpa [List.reverse_append, List.append_assoc] using h
  · rintro ⟨a, b, rfl⟩
    exact ⟨b.reverse, a.reverse, by simp [List.reverse_append, List.append_assoc]⟩

theorem occ_stripChars (n : List Char) (hn : ∀ d ∈ n, pySpace d = false) (hne : n ≠ [])
    (l : List Char) :
    ((∃ a b, stripChars l = a ++ n ++ b) ↔ ∃ a b, l = a ++ n ++ b) := by
  unfold stripChars
  rw [occ_reverse,
    occ_dropWhile n.reverse (fun d hd => hn d (List.mem_reverse.mp hd))
      (by simpa using hne),
    occ_reverse, List.reverse_reverse,
    occ_dropWhile n hn hne]

theorem strHas_strip_iff (x w : String) (hne : w.data ≠ [])
    (hw : ∀ d ∈ w.data, pySpace d = false) :
    (strHas (pyStrip x) w = true ↔ strHas x w = true) := by
  show isSub w.data (stripChars x.data) = true ↔ isSub w.data x.data = true
  rw [isSub_iff, isSub_iff]
  exact occ_stripChars w.data hw hne x.data

/-- The condition tested by `_standardize_decision_status` against a keyword
is equivalent to plain containment in the lowercased input: stripping cannot
create or destroy an occurrence of a whitespace-free keyword. -/
theorem code_cond_iff (s w : String) (hne : w.data ≠ [])
    (hw : ∀ d ∈ w.data, pySpace d = false) :
    (strHas (pyStrip (pyLower s)) w = true ↔ Contains (pyLower s) w) :=
  (strHas_strip_iff (pyLower s) w hne hw).trans (strHas_iff_contains (pyLower s) w)

/-- C7, amended: for every input string, `_standardize_decision_status`
returns `"Accepted"` when the lowercased input contains `accept` or `admit`;
otherwise `"Rejected"` when it contains `reject` or `den`; otherwise
`"Waitlisted"` when it contains `wait` or `list`; otherwise `"Interview"`
when it contains `interview`; otherwise the title-cased form of the
lowercased and stripped input — not of the input itself, which is what the
unamended claim said — and empty input yields empty; in particular
`"accepted" ↦ "Accepted"`, `"wait listed" ↦ "Waitlisted"`,
`"foo" ↦ "Foo"`. -/
theorem claim7_status (s : String) :
    (s = "" → standardize_decision_status s = "") ∧
    (s ≠ "" →
      (((Contains (pyLower s) "accept" ∨ Contains (pyLower s) "admit")) →
          standardize_decision_status s = "Accepted") ∧
      (¬(Contains (pyLower s) "accept" ∨ Contains (pyLower s) "admit") →
        (Contains (pyLower s) "reject" ∨ Contains (pyLower s) "den") →
          standardize_decision_status s = "Rejected") ∧
      (¬(Contains (pyLower s) "accept" ∨ Contains (pyLower s) "admit") →
        ¬(Contains (pyLower s) "reject" ∨ Contains (pyLower s) "den") →
        (Contains (pyLower s) "wait" ∨ Contains (pyLower s) "list") →
          standardize_decision_status s = "Waitlisted") ∧
      (¬(Contains (pyLower s) "accept" ∨ Contains (pyLower s) "admit") →
        ¬(Contains (pyLower s) "reject" ∨ Contains (pyLower s) "den") →
        ¬(Contains (pyLower s) "wait" ∨ Contains (pyLower s) "list") →
        Contains (pyLower s) "interview" →
          standardize_decision_status s = "Interview") ∧
      (¬(Contains (pyLower s) "accept" ∨ Contains (pyLower s) "admit") →
        ¬(Contains (pyLower s) "reject" ∨ Contains (pyLower s) "den") →
        ¬(Contains (pyLower s) "wait" ∨ Contains (pyLower s) "list") →
        ¬Contains (pyLower s) "interview" →
          standardize_decision_status s = pyTitle (pyStrip (pyLower s)))) ∧
    standardize_decision_status "accepted" = "Accepted" ∧
    standardize_decision_status "wait listed" = "Waitlisted" ∧
    standardize_decision_status "foo" = "Foo" := by
  refine ⟨?_, ?_, by decide, by decide, by decide⟩
  · intro hs
    rw [standardize_decision_status, if_pos hs]
  · intro hs
    have ca : (strHas (pyStrip (pyLower s)) "accept" ||
        strHas (pyStrip (pyLower s)) "admit") = true ↔
        (Contains (pyLower s) "accept" ∨ Contains (pyLower s) "admit") := by
      rw [Bool.or_eq_true, code_cond_iff s "accept" (by decide) (by decide),
        code_cond_iff s "admit" (by decide) (by decide)]
    have cr : (strHas (pyStrip (pyLower s)) "reject" ||
        strHas (pyStrip (pyLower s)) "den") = true ↔
        (Contains (pyLower s) "reject" ∨ Contains (pyLower s) "den") := by
      rw [Bool.or_eq_true, code_cond_iff s "reject" (by decide) (by decide),
        code_cond_iff s "den" (by decide) (by decide)]
    have cw : (strHas (pyStrip (pyLower s)) "wait" ||
        strHas (pyStrip (pyLower s)) "list") = true ↔
        (Contains (pyLower s) "wait" ∨ Contains (pyLower s) "list") := by
      rw [Bool.or_eq_true, code_cond_iff s "wait" (by decide) (by decide),
        code_cond_iff s "list" (by decide) (by decide)]
    have ci : strHas (pyStrip (pyLower s)) "interview" = true ↔
        Contains (pyLower s) "interview" :=
      code_cond_iff s "interview" (by decide) (by decide)
    have hstd : standardize_decision_status s =
        (if (strHas (pyStrip (pyLower s)) "accept" ||
            strHas (pyStrip (pyLower s)) "admit") = true then "Accepted"
        else if (strHas (pyStrip (pyLower s)) "reject" ||
            strHas (pyStrip (pyLower s)) "den") = true then "Rejected"
        else if (strHas (pyStrip (pyLower s)) "wait" ||
            strHas (pyStrip (pyLower s)) "list") = true then "Waitlisted"
        else if strHas (pyStrip (pyLower s)) "interview" = true then "Interview"
        else pyTitle (pyStrip (pyLower s))) := by
      rw [standardize_decision_status, if_neg hs]
    refine ⟨?_, ?_, ?_, ?_, ?_⟩
    · intro h1
      rw [hstd, if_pos (ca.mpr h1)]
    · intro h1 h2
      rw [hstd, if_neg (fun hb => h1 (ca.mp hb)), if_pos (cr.mpr h2)]
    · intro h1 h2 h3
      rw [hstd, if_neg (fun hb => h1 (ca.mp hb)), if_neg (fun hb => h2 (cr.mp hb)),
        if_pos (cw.mpr h3)]
    · intro h1 h2 h3 h4
      rw [hstd, if_neg (fun hb => h1 (ca.mp hb)), if_neg (fun hb => h2 (cr.mp hb)),
        if_neg (fun hb => h3 (cw.mp hb)), if_pos (ci.mpr h4)]
    · intro h1 h2 h3 h4
      rw [hstd, if_neg (fun hb => h1 (ca.mp hb)), if_neg (fun hb => h2 (cr.mp hb)),
        if_neg (fun hb => h3 (cw.mp hb)), if_neg (fun hb => h4 (ci.mp hb))]

/-- C7 witness: the status theorem applied at `"accepted"`. -/
theorem claim7_witness :
    "accepted" ≠ "" ∧ Contains (pyLower "accepted") "accept" ∧
    standardize_decision_status "accepted" = "Accepted" :=
  ⟨by decide, ⟨"", "ed", by decide⟩,
    ((claim7_status "accepted").2.1 (by decide)).1 (Or.inl ⟨"", "ed", by decide⟩)⟩

/-- C7 counterexample: on `" foo "` no keyword matches, the code returns the
title-cased stripped input `"Foo"`, while the claim's "title-cased input"
would be `" Foo "`. -/
theorem claim7_counterexample :
    standardize_decision_status " foo " = "Foo" ∧ pyTitle " foo " = " Foo " ∧
    ("Foo" : String) ≠ " Foo " := by decide

/-! ## Claim C8 -/

/-- C8: a record whose cleaning yields no record (in this total model the
only way `clean_entry` can fail; the source's `except Exception` branch also
returns `None`) is counted as removed and does not disturb the processing of
the records before or after it, so a single record's failure never aborts
the run; and the numeric field parsers are total, yielding `""` when no
number can be parsed. -/
theorem claim8_record_scoped (stats : CleaningStats) (xs ys : List RawEntry)
    (e : RawEntry) (h : clean_entry e = none) :
    ((clean_data stats (xs ++ e :: ys)).1 = (clean_data stats (xs ++ ys)).1) ∧
    ((clean_data stats (xs ++ e :: ys)).2.removed_entries =
      (clean_data stats (xs ++ ys)).2.removed_entries + 1) ∧
    ((clean_data stats (xs ++ e :: ys)).2.cleaned_entries =
      (clean_data stats (xs ++ ys)).2.cleaned_entries) ∧
    ((clean_data stats (xs ++ e :: ys)).2.total_entries = xs.length + 1 + ys.length) ∧
    (∀ t : String, findNum (clean_text t).data = none →
      clean_gpa t = "" ∧ clean_gre_aw t = "") ∧
    (∀ t : String, findInt (clean_text t).data = none → clean_gre_score t = "") := by
  have hfm : (xs ++ e :: ys).filterMap clean_entry = (xs ++ ys).filterMap clean_entry := by
    simp [List.filterMap_append, List.filterMap_cons_none h]
  have hK : ((xs ++ ys).filterMap clean_entry).length ≤ (xs ++ ys).length :=
    List.length_filterMap_le _ _
  simp only [List.length_append] at hK
  refine ⟨?_, ?_, ?_, ?_, ?_, ?_⟩
  · rw [clean_data_records, clean_data_records, hfm]
  · simp only [clean_data_stats, hfm, List.length_append, List.length_cons]
    omega
  · simp only [clean_data_stats, hfm]
  · simp only [clean_data_stats, List.length_append, List.length_cons]
    omega
  · intro t ht
    constructor
    · simp only [clean_gpa, ht, ite_self]
    · simp only [clean_gre_aw, ht, ite_self]
  · intro t ht
    simp only [clean_gre_score, ht, ite_self]

/-- C8 witness: the record-scoped failure theorem applied to a concrete run
around the all-empty raw record, which fails validation. -/
theorem claim8_witness :
    (clean_data initStats ([entryGood] ++ ({} : RawEntry) :: [entryGood])).1 =
      (clean_data initStats ([entryGood] ++ [entryGood])).1 ∧
    (clean_data initStats ([entryGood] ++ ({} : RawEntry) :: [entryGood])).2.removed_entries =
      (clean_data initStats ([entryGood] ++ [entryGood])).2.removed_entries + 1 :=
  ⟨(claim8_record_scoped initStats [entryGood] [entryGood] {} (by decide)).1,
    (claim8_record_scoped initStats [entryGood] [entryGood] {} (by decide)).2.1⟩

/-! ## Claim C9 -/

/-- C9, amended: every character of a `_clean_text` output is a word
character, whitespace, or one of `-.,;:()&/` (in particular `<` and `>`
never survive, so the output is HTML-free); but the output is not in general
whitespace-collapsed or stripped: the whitespace pass runs before the
special-character filter, so removing a filtered character can leave two
adjacent spaces, or leading/trailing whitespace, in the final output. -/
theorem claim9_charset (s : String) (c : Char) (hc : c ∈ (clean_text s).data) :
    wordChar c = true ∨ pySpace c = true ∨ keptSpecial c = true := by
  unfold clean_text at hc
  split at hc
  · simp at hc
  · have hc' : c ∈ List.filter keepChar (stripChars (collapseSpaces (stripTags s.data))) := hc
    simpa [keepChar, Bool.or_eq_true, or_assoc] using List.of_mem_filter hc'

/-- C9 witness: the character-set theorem instantiated at a concrete output
character. -/
theorem claim9_witness :
    wordChar 'a' = true ∨ pySpace 'a' = true ∨ keptSpecial 'a' = true :=
  claim9_charset "a" 'a' (by decide)

/-- C9 counterexample: `_clean_text "a @ b" = "a  b"` contains two
consecutive spaces, and `_clean_text "@ @" = " "` consists of a single
space, i.e. has leading and trailing whitespace — both contradict the
claim's "whitespace-collapsed" property. -/
theorem claim9_counterexample :
    clean_text "a @ b" = "a  b" ∧
    (clean_text "a @ b").data = ['a', ' ', ' ', 'b'] ∧
    clean_text "@ @" = " " := by decide

/-! ## Claim C10 -/

/-- C10: a primary row (at least 4 cells) with non-empty program cell text
always produces a record with non-empty `program_name`: the degree keywords
are tried in the fixed order Masters, PhD, MS, MA, Doctorate, Bachelors, BS,
BA, and when splitting on the first matching keyword leaves an empty
(stripped) prefix — e.g. the cell text is exactly a degree keyword — the
full original program text is used as the program name. -/
theorem claim10_program_name (row : Row) (nextRow : Option Row) (d : RawEntry)
    (h4 : 4 ≤ row.cells.length) (hp : row.cells.getD 1 "" ≠ "")
    (he : extract_entry_data row nextRow = some d) :
    d.program_name ≠ "" ∧
    (∀ kw : String,
      degreeKeywords.find? (fun k => strHas (row.cells.getD 1 "") k) = some kw →
      pyStrip ⟨(splitOnSub kw.data (row.cells.getD 1 "").data).headD []⟩ = "" →
      d.program_name = row.cells.getD 1 "") := by
  have hlt : ¬ (row.cells.length < 4) := by omega
  simp only [extract_entry_data, hlt, if_false, Option.some.injEq] at he
  subst he
  constructor
  · show (parseProgram (row.cells.getD 1 "")).1 ≠ ""
    unfold parseProgram
    rw [if_neg hp]
    cases hf : degreeKeywords.find? (fun k => strHas (row.cells.getD 1 "") k) with
    | none => simpa using hp
    | some k =>
      simp only
      split
      · simpa using hp
      · next hpn => simpa using hpn
  · intro kw hkw hempty
    show (parseProgram (row.cells.getD 1 "")).1 = row.cells.getD 1 ""
    unfold parseProgram
    rw [if_neg hp, hkw]
    simp only [hempty, if_pos]

/-- C10 witness: the program-name theorem applied to a row whose program
cell is exactly the keyword `"Masters"`. -/
theorem claim10_witness :
    ((extract_entry_data rowKeywordOnly none).getD {}).program_name ≠ "" ∧
    ((extract_entry_data rowKeywordOnly none).getD {}).program_name =
      rowKeywordOnly.cells.getD 1 "" := by
  have he : extract_entry_data rowKeywordOnly none =
      some ((extract_entry_data rowKeywordOnly none).getD {}) := by decide
  have h := claim10_program_name rowKeywordOnly none
    ((extract_entry_data rowKeywordOnly none).getD {}) (by decide) (by decide) he
  exact ⟨h.1, h.2 "Masters" (by decide) (by decide)⟩

end GradCafe
